import Mathlib

/-!
Verification of `pymbar/confidenceintervals.py`.

The module under verification validates statistical-uncertainty estimates:
order-statistic normalization across replicates (`OrderReplicates`), an
Anderson-Darling goodness-of-fit computation (`AndersonDarling`), and an
empirical-coverage confidence-interval sweep with summary statistics
(`generateConfidenceIntervals`).

Embedding conventions:
* Python floats are modelled as rationals (`ℚ`); for the coverage analyzer,
  where NaN values are semantically relevant, floats are `Option ℚ` with
  `none` playing the role of NaN.
* numpy arrays of the three supported dimensionalities (plus one higher
  dimensionality, needed to talk about the `len(dims)` fallthrough branches)
  are the inductive `Data`.
* The output of `OrderReplicates` (an `N × shape` array that the source
  fills one coordinate-column `sortedyi[:, c]` at a time) is represented
  coordinate-major: a `Data (List ℚ)` mapping each coordinate to its
  length-`N` column along the replicate axis.
* External library calls (`scipy.stats.norm.cdf`, `np.log`,
  `scipy.stats.beta.ppf`, `scipy.special.erf`, `numpy.sqrt`) are parameters
  of the definitions that use them.
* The module body executes `import numpy` (binding the global name `numpy`)
  and `import scipy`/`scipy.special`/`scipy.stats` (binding `scipy`), yet
  `OrderReplicates`, `AndersonDarling` and `QQPlot` refer to the global name
  `np`.  Python resolves the callee `np.shape` before evaluating its
  arguments, so those functions raise `NameError` on entry.  This
  name-resolution layer is modelled by `globalDefined`, and the
  `Except`-valued functions `OrderReplicates` / `AndersonDarling` wrap the
  arithmetic cores accordingly.
-/

/-- A numpy array holding elements of type `α`: dimensionality 0 (scalar),
1 (length-`K` vector), 2 (`K × K` matrix), or 3 (a higher-dimensional array,
present so that the source's `len(dims)` fallthrough behaviour is
expressible). -/
inductive Data (α : Type) where
  | d0 (x : α)
  | d1 (v : List α)
  | d2 (m : List (List α))
  | d3 (t : List (List (List α)))
deriving DecidableEq

instance {α : Type} [Inhabited α] : Inhabited (Data α) := ⟨Data.d0 default⟩

/-- `len(numpy.shape(-))` of an array. -/
def Data.ndim {α : Type} : Data α → ℕ
  | .d0 _ => 0
  | .d1 _ => 1
  | .d2 _ => 2
  | .d3 _ => 3

/-- Elementwise map over an array. -/
def Data.map {α β : Type} (f : α → β) : Data α → Data β
  | .d0 x => .d0 (f x)
  | .d1 v => .d1 (v.map f)
  | .d2 m => .d2 (m.map (List.map f))
  | .d3 t => .d3 (t.map (fun m => m.map (List.map f)))

/-- Elementwise combination of two arrays of the same dimensionality
(numpy broadcasting of equal shapes; mismatched dimensionalities produce a
junk scalar and only arise on inputs that violate the ReplicateSet shape
invariant). -/
def Data.zipWith {α β γ : Type} [Inhabited γ] (f : α → β → γ) :
    Data α → Data β → Data γ
  | .d0 x, .d0 y => .d0 (f x y)
  | .d1 v, .d1 w => .d1 (List.zipWith f v w)
  | .d2 m, .d2 n => .d2 (List.zipWith (List.zipWith f) m n)
  | .d3 s, .d3 t => .d3 (List.zipWith (List.zipWith (List.zipWith f)) s t)
  | _, _ => .d0 default

/-- Boolean "every element satisfies `p`". -/
def Data.all {α : Type} (p : α → Bool) : Data α → Bool
  | .d0 x => p x
  | .d1 v => v.all p
  | .d2 m => m.all (fun row => row.all p)
  | .d3 t => t.all (fun m => m.all (fun row => row.all p))

/-- Scalar extraction (indexing a 0-dimensional array); `dflt` on
ill-shaped input. -/
def Data.scal {α : Type} (dflt : α) : Data α → α
  | .d0 x => x
  | _ => dflt

/-- Vector extraction from a 1-dimensional array. -/
def Data.vec1 {α : Type} : Data α → List α
  | .d1 v => v
  | _ => []

/-- Matrix extraction from a 2-dimensional array. -/
def Data.mat2 {α : Type} : Data α → List (List α)
  | .d2 m => m
  | _ => []

/-- `m[i, j]`, with default `d` out of range. -/
def getD2 {α : Type} (m : List (List α)) (i j : ℕ) (d : α) : α :=
  (m.getD i []).getD j d

/-- One independent trial: `estimated` value, signed `error` versus the
truth, and self-reported standard error `destimated`, all of one shape. -/
structure Replicate (α : Type) where
  estimated : Data α
  error : Data α
  destimated : Data α
deriving DecidableEq

instance {α : Type} [Inhabited α] : Inhabited (Replicate α) :=
  ⟨⟨default, default, default⟩⟩

/-- Exceptions the module can raise.  `nameErrorNp` is
`NameError: name 'np' is not defined`; `raiseIsnan` is the
`raise "isnan"` statement of `generateConfidenceIntervals`; `unboundVals`
and `unboundPave` are the `UnboundLocalError`s on the local names `vals`
(read at `numpy.average(vals, axis=0)` when no dimensionality branch
assigned it) and `pave` (read at the final Totals line when the printing
loop body never ran). -/
inductive PyError where
  | nameErrorNp
  | raiseIsnan
  | unboundVals
  | unboundPave
deriving DecidableEq

instance {ε α : Type} [DecidableEq ε] [DecidableEq α] :
    DecidableEq (Except ε α) := fun a b =>
  match a, b with
  | .error e, .error f =>
      if h : e = f then .isTrue (by rw [h]) else
        .isFalse (fun hc => h (by injection hc))
  | .ok x, .ok y =>
      if h : x = y then .isTrue (by rw [h]) else
        .isFalse (fun hc => h (by injection hc))
  | .error _, .ok _ => .isFalse (fun hc => by injection hc)
  | .ok _, .error _ => .isFalse (fun hc => by injection hc)

/-- The global names the Python module can refer to. -/
inductive PyName where
  | np
  | numpy
  | scipy
deriving DecidableEq

/-- Global names bound by the module's imports: `import numpy` binds
`numpy`; `import scipy`, `import scipy.special`, `import scipy.stats`
bind `scipy`.  Nothing binds `np`. -/
def moduleGlobals : List PyName := [PyName.numpy, PyName.scipy]

/-- Python global-name lookup against the module namespace. -/
def globalDefined (n : PyName) : Bool := moduleGlobals.contains n

/-- Ascending sort of one coordinate's column, `np.sort`. -/
def sortQ (l : List ℚ) : List ℚ := List.insertionSort (· ≤ ·) l

/-- `sigma += (sigma == 0)` applied at one coordinate: the zero-sigma
sentinel substitution that avoids division by zero. -/
def corrSigma (s : ℚ) : ℚ := if s = 0 then s + 1 else s

/-- Arithmetic of `OrderReplicates` (the part of the body after the
failing `np` lookup, read with `np` as numpy): take replicate 0's
`destimated` as `sigma`, substitute 1 at zero-sigma coordinates, divide
every replicate's `error` by it elementwise, and sort each coordinate's
column of `N` values independently.  Coordinate-major output: coordinate
`c` holds the sorted column `sortedyi[:, c]`.  For `len(dims)` outside
{0, 1, 2} no branch fills `sortedyi`, which therefore stays the all-zeros
array `np.zeros(np.shape(yiarray))`. -/
def OrderReplicatesCore (replicates : List (Replicate ℚ)) (K : ℕ) :
    Data (List ℚ) :=
  let sigma := (replicates.headD default).destimated
  match sigma with
  | .d0 s =>
      .d0 (sortQ (replicates.map (fun r => r.error.scal 0 / corrSigma s)))
  | .d1 sv =>
      .d1 ((List.range K).map (fun i =>
        sortQ (replicates.map (fun r =>
          r.error.vec1.getD i 0 / corrSigma (sv.getD i 0)))))
  | .d2 sm =>
      .d2 ((List.range K).map (fun i => (List.range K).map (fun j =>
        sortQ (replicates.map (fun r =>
          getD2 r.error.mat2 i j 0 / corrSigma (getD2 sm i j 0))))))
  | .d3 _ =>
      (Data.zipWith (fun e s => e / corrSigma s)
          (replicates.headD default).error sigma).map
        (fun _ => List.replicate replicates.length (0 : ℚ))

/-- `OrderReplicates` as the module executes it: the body's first
expression `np.shape(...)` resolves the global `np` before touching any
argument, so the whole call raises `NameError` when `np` is unbound. -/
def OrderReplicates (replicates : List (Replicate ℚ)) (K : ℕ) :
    Except PyError (Data (List ℚ)) :=
  if globalDefined PyName.np then Except.ok (OrderReplicatesCore replicates K)
  else Except.error PyError.nameErrorNp

/-- One summand of the Anderson-Darling accumulation exactly as the source
writes it: `(2*i-1)*np.log(cdfi) + (2*(N-i)+1)*np.log(1-cdfi)` with `i`
the 0-based loop index.  `cdf` models `scipy.stats.norm.cdf` and `logQ`
models `np.log`. -/
def adTerm (cdf logQ : ℚ → ℚ) (N i : ℕ) (y : ℚ) : ℚ :=
  (2 * (i : ℚ) - 1) * logQ (cdf y) +
    (2 * ((N : ℚ) - (i : ℚ)) + 1) * logQ (1 - cdf y)

/-- The accumulated `sum` of the source's `for i in range(N)` loop at one
coordinate, whose sorted column is `col`. -/
def adSum (cdf logQ : ℚ → ℚ) (N : ℕ) (col : List ℚ) : ℚ :=
  (List.range N).foldl (fun acc i => acc + adTerm cdf logQ N i (col.getD i 0)) 0

/-- Arithmetic of `AndersonDarling` (after the failing `np` lookup):
`A2 = -N - sum/N` per coordinate from the sorted normalized columns, then
`A2[zerosigma] = 0` forces coordinates whose reference `destimated` is zero
to the sentinel statistic 0. -/
def AndersonDarlingCore (cdf logQ : ℚ → ℚ) (replicates : List (Replicate ℚ))
    (K : ℕ) : Data ℚ :=
  let sortedyi := OrderReplicatesCore replicates K
  let zerosigma := (replicates.headD default).destimated
  let N := replicates.length
  let A2 := (sortedyi.map (adSum cdf logQ N)).map
    (fun s => -(N : ℚ) - s / (N : ℚ))
  Data.zipWith (fun s a => if s = 0 then 0 else a) zerosigma A2

/-- `AndersonDarling` as the module executes it: it first calls
`OrderReplicates` (which raises), and its own body also reads the unbound
global `np`. -/
def AndersonDarling (cdf logQ : ℚ → ℚ) (replicates : List (Replicate ℚ))
    (K : ℕ) : Except PyError (Data ℚ) :=
  match OrderReplicates replicates K with
  | Except.error e => Except.error e
  | Except.ok _ =>
      if globalDefined PyName.np then
        Except.ok (AndersonDarlingCore cdf logQ replicates K)
      else Except.error PyError.nameErrorNp

/-- Modelled from the spec: the classical Anderson-Darling statistic
`A² = -N - S/N` with `S` using the 1-based replicate rank `i+1` in the
two weight terms (`2·(i+1)-1` and `2·(N-(i+1))+1`), as the spec states the
goodness-of-fit component must compute it.  The comparison point for the
weighting convention actually found in `adTerm`. -/
def andersonDarlingClassicalSpec (cdf logQ : ℚ → ℚ) (N : ℕ)
    (ys : List ℚ) : ℚ :=
  -(N : ℚ) -
    ((List.range N).foldl (fun acc (i : ℕ) =>
      acc + ((2 * ((i : ℚ) + 1) - 1) * logQ (cdf (ys.getD i 0)) +
        (2 * ((N : ℚ) - ((i : ℚ) + 1)) + 1) * logQ (1 - cdf (ys.getD i 0)))) 0)
    / (N : ℚ)

/-- A Python float as the coverage analyzer sees it: either an actual
(rational) value or NaN, modelled as `none`. -/
abbrev PF : Type := Option ℚ

/-- Float addition; NaN propagates. -/
def pyAdd : PF → PF → PF
  | some x, some y => some (x + y)
  | _, _ => none

/-- Float subtraction; NaN propagates. -/
def pySub : PF → PF → PF
  | some x, some y => some (x - y)
  | _, _ => none

/-- Float multiplication; NaN propagates. -/
def pyMul : PF → PF → PF
  | some x, some y => some (x * y)
  | _, _ => none

/-- Float division; NaN propagates, and division by zero does not produce
a rational value. -/
def pyDiv : PF → PF → PF
  | some x, some y => if y = 0 then none else some (x / y)
  | _, _ => none

/-- Squaring, `x ** 2`. -/
def pySq (x : PF) : PF := pyMul x x

/-- The strict-lower-triangle index pairs `(i, j)` with `j < i`, in the
order of the source's `for i in range(K): for j in range(0, i)` loops. -/
def lowerTriPairs (K : ℕ) : List (ℕ × ℕ) :=
  (List.range K).flatMap (fun i => (List.range i).map (fun j => (i, j)))

/-- The `(error, destimated)` pairs visited by one pass of the inner
replicate/coordinate loops of `generateConfidenceIntervals`: one scalar
pair for dimensionality 0, `K` per replicate for dimensionality 1, the
strict lower triangle for dimensionality 2, and nothing at all for any
other dimensionality (no branch of the `if dim == ...` chain runs). -/
def testedItems (dim K : ℕ) (replicates : List (Replicate PF)) :
    List (PF × PF) :=
  replicates.flatMap (fun r =>
    match dim with
    | 0 => [(r.error.scal (some 0), r.destimated.scal (some 0))]
    | 1 => (List.range K).map (fun i =>
        (r.error.vec1.getD i (some 0), r.destimated.vec1.getD i (some 0)))
    | 2 => (lowerTriPairs K).map (fun p =>
        (getD2 r.error.mat2 p.1 p.2 (some 0),
          getD2 r.destimated.mat2 p.1 p.2 (some 0)))
    | _ => [])

/-- The success/failure tally of one alpha value: starting from the
Bayesian pseudo-counts `(a, b)`, each visited pair first undergoes the
`numpy.isnan` check (raising `"isnan"` on NaN), then `a` or `b` is bumped
according to `abs(error) <= alpha * destimated`. -/
def tallyAB (alpha : ℚ) : List (PF × PF) → ℚ × ℚ → Except PyError (ℚ × ℚ)
  | [], ab => Except.ok ab
  | (e, d) :: rest, (a, b) =>
      match e, d with
      | some ev, some dv =>
          if |ev| ≤ alpha * dv then tallyAB alpha rest (a + 1, b)
          else tallyAB alpha rest (a, b + 1)
      | _, _ => Except.error PyError.raiseIsnan

def min_alpha : ℚ := 1/10

def max_alpha : ℚ := 4

def nalpha : ℕ := 40

/-- `numpy.linspace(min_alpha, max_alpha, num=nalpha)`:
`min_alpha + m * (max_alpha - min_alpha)/(nalpha - 1)` for `m < nalpha`. -/
def alphaValues : List ℚ :=
  (List.range nalpha).map (fun (m : ℕ) =>
    min_alpha + (m : ℚ) * ((max_alpha - min_alpha) / ((nalpha : ℚ) - 1)))

/-- The four per-alpha outputs of the sweep. -/
structure AlphaRow where
  Pobs : ℚ
  Plow : ℚ
  Phigh : ℚ
  dPobs : ℚ
deriving DecidableEq

/-- One iteration of the alpha loop: tally, then
`Pobs = a/(a+b)`, `Plow = beta.ppf(0.025, a, b)`,
`Phigh = beta.ppf(0.975, a, b)` and
`dPobs = sqrt(a*b/((a+b)**2 * (a+b+1)))`.  `betaPpf` models
`scipy.stats.beta.ppf` and `sqrtQ` models `numpy.sqrt`. -/
def sweepRow (betaPpf : ℚ → ℚ → ℚ → ℚ) (sqrtQ : ℚ → ℚ)
    (items : List (PF × PF)) (alpha : ℚ) : Except PyError AlphaRow :=
  match tallyAB alpha items (1, 1) with
  | Except.error e => Except.error e
  | Except.ok (a, b) => Except.ok
      { Pobs := a / (a + b)
        Plow := betaPpf (1/40) a b
        Phigh := betaPpf (39/40) a b
        dPobs := sqrtQ (a * b / ((a + b) ^ 2 * (a + b + 1))) }

/-- Run an `Except`-valued computation for each list element in order,
stopping at the first raise (the control flow of a Python loop whose body
can raise). -/
def mapE {α β : Type} (f : α → Except PyError β) :
    List α → Except PyError (List β)
  | [] => Except.ok []
  | a :: l =>
      match f a with
      | Except.error e => Except.error e
      | Except.ok b =>
          match mapE f l with
          | Except.error e => Except.error e
          | Except.ok bs => Except.ok (b :: bs)

/-- The failure behaviour of the summary block (source lines 278-347):
for dimensionality outside {0, 1, 2} no branch assigns the local `vals`,
so `numpy.average(vals, axis=0)` raises `UnboundLocalError`; for
dimensionality 1 or 2 with `K = 0` the printing loop never assigns `pave`,
so the final Totals line raises `UnboundLocalError`. -/
def summaryCheck (dim K : ℕ) : Except PyError Unit :=
  if 2 < dim then Except.error PyError.unboundVals
  else if (dim = 1 ∨ dim = 2) ∧ K = 0 then Except.error PyError.unboundPave
  else Except.ok ()

/-- The value `generateConfidenceIntervals` returns:
`alpha_values, Pobs, Plow, Phigh, dPobs, Pnorm` (source line 349). -/
structure CIResult where
  alpha_values : List ℚ
  Pobs : List ℚ
  Plow : List ℚ
  Phigh : List ℚ
  dPobs : List ℚ
  Pnorm : List ℚ
deriving DecidableEq

/-- `generateConfidenceIntervals`: dimensionality is read from replicate
0's `estimated`; the alpha sweep tallies coverage per alpha value (raising
on NaN); `Pnorm = erf(alpha_values / sqrt(2))`; the summary block runs (its
possible `UnboundLocalError`s modelled by `summaryCheck`, its computed
arrays by `summaryStatistics` below, which are printed, not returned); the
returned value is the 6-component `CIResult`.  `erfQ` models
`scipy.special.erf`. -/
def generateConfidenceIntervals (betaPpf : ℚ → ℚ → ℚ → ℚ)
    (erfQ sqrtQ : ℚ → ℚ) (replicates : List (Replicate PF)) (K : ℕ) :
    Except PyError CIResult :=
  let dim := (replicates.headD default).estimated.ndim
  let items := testedItems dim K replicates
  match mapE (sweepRow betaPpf sqrtQ items) alphaValues with
  | Except.error e => Except.error e
  | Except.ok rows =>
      match summaryCheck dim K with
      | Except.error e => Except.error e
      | Except.ok _ => Except.ok
          { alpha_values := alphaValues
            Pobs := rows.map (fun r => r.Pobs)
            Plow := rows.map (fun r => r.Plow)
            Phigh := rows.map (fun r => r.Phigh)
            dPobs := rows.map (fun r => r.dPobs)
            Pnorm := alphaValues.map (fun a => erfQ (a / sqrtQ 2)) }

/-- The rows of the `vals`/`vals_error`/`vals_std` arrays as the summary
block's loops leave them.  For dimensionality 0 each row is assigned the
replicate's value; for dimensionality 1 the row is assigned whole (`K`
times over) provided `K > 0`, else it keeps its `numpy.zeros` content; for
dimensionality 2 the whole `K x K` slice is assigned once per
strict-lower-triangle pair — so not at all when `K < 2`, leaving zeros. -/
def valsRows (dim K : ℕ) (replicates : List (Replicate PF))
    (f : Replicate PF → Data PF) : List (Data PF) :=
  replicates.map (fun r =>
    match dim with
    | 0 => f r
    | 1 => if 0 < K then f r else Data.d1 (List.replicate K (some 0))
    | 2 => if 2 ≤ K then f r
        else Data.d2 (List.replicate K (List.replicate K (some 0)))
    | _ => Data.d0 (some 0))

/-- `numpy.average(rows, axis=0)`: coordinate-wise sum divided by the
number of rows. -/
def meanAxis0 (rows : List (Data PF)) : Data PF :=
  ((rows.foldl (Data.zipWith pyAdd)
      ((rows.headD default).map (fun _ => some 0)))).map
    (fun s => pyDiv s (some (rows.length : ℚ)))

/-- `numpy.std(rows, axis=0)`: root of the mean squared deviation from the
coordinate-wise mean. -/
def stdAxis0 (sqrtQ : ℚ → ℚ) (rows : List (Data PF)) : Data PF :=
  let mu := meanAxis0 rows
  (meanAxis0 (rows.map (fun row =>
    Data.zipWith (fun x m => pySq (pySub x m)) row mu))).map
    (Option.map sqrtQ)

/-- The five per-coordinate summary arrays the source prints. -/
structure SummaryStats where
  aveval : Data PF
  bias : Data PF
  rms_error : Data PF
  standarddev : Data PF
  ave_std : Data PF
deriving DecidableEq

/-- The summary computation of `generateConfidenceIntervals` (source lines
278-318): `aveval = average(vals)`, `bias = average(vals_error)`,
`rms_error = average(vals_error**2) ** 0.5`, `standarddev = std(vals)`,
`ave_std = average(vals_std**2) ** 0.5`, all along the replicate axis.
These arrays are printed, and are not part of the returned tuple. -/
def summaryStatistics (sqrtQ : ℚ → ℚ) (replicates : List (Replicate PF))
    (K : ℕ) : SummaryStats :=
  let dim := (replicates.headD default).estimated.ndim
  let vals := valsRows dim K replicates (fun r => r.estimated)
  let vals_error := valsRows dim K replicates (fun r => r.error)
  let vals_std := valsRows dim K replicates (fun r => r.destimated)
  { aveval := meanAxis0 vals
    bias := meanAxis0 vals_error
    rms_error := (meanAxis0 (vals_error.map (Data.map pySq))).map
      (Option.map sqrtQ)
    standarddev := stdAxis0 sqrtQ vals
    ave_std := (meanAxis0 (vals_std.map (Data.map pySq))).map
      (Option.map sqrtQ) }

/-- Every element (at every coordinate) of an array satisfies `P`. -/
def Data.AllP {α : Type} (P : α → Prop) : Data α → Prop
  | .d0 x => P x
  | .d1 v => ∀ x ∈ v, P x
  | .d2 m => ∀ row ∈ m, ∀ x ∈ row, P x
  | .d3 t => ∀ m ∈ t, ∀ row ∈ m, ∀ x ∈ row, P x

/-- "At every coordinate of `stat` whose corresponding coordinate of
`sigma` is zero, `stat` is zero" (the zero-sigma forcing contract of the
Anderson-Darling statistic).  Dimensionality mismatches, which violate the
ReplicateSet shape invariant, are not constrained. -/
def maskedZero : Data ℚ → Data ℚ → Prop
  | .d0 s, .d0 a => s = 0 → a = 0
  | .d1 sv, .d1 av => ∀ i, i < av.length → sv.getD i 1 = 0 → av.getD i 1 = 0
  | .d2 sm, .d2 am => ∀ i j, i < am.length → j < (am.getD i []).length →
      (sm.getD i []).getD j 1 = 0 → (am.getD i []).getD j 1 = 0
  | .d3 st, .d3 au => ∀ i j k, i < au.length → j < (au.getD i []).length →
      k < ((au.getD i []).getD j []).length →
      ((st.getD i []).getD j []).getD k 1 = 0 →
      ((au.getD i []).getD j []).getD k 1 = 0
  | _, _ => True

/-- A 2-replicate scalar ReplicateSet for evaluating the Anderson-Darling
weighting convention: both errors 0, reference `destimated` 1. -/
def adWeightReps : List (Replicate ℚ) :=
  [⟨Data.d0 0, Data.d0 0, Data.d0 1⟩, ⟨Data.d0 0, Data.d0 0, Data.d0 1⟩]

/-- A one-replicate ReplicateSet of dimensionality 3 (normalizer side). -/
def dim3Reps : List (Replicate ℚ) :=
  [⟨Data.d3 [[[1]]], Data.d3 [[[2]]], Data.d3 [[[3]]]⟩]

/-- A one-replicate ReplicateSet of dimensionality 3 (coverage side). -/
def dim3RepsPF : List (Replicate PF) :=
  [⟨Data.d3 [[[some 1]]], Data.d3 [[[some 2]]], Data.d3 [[[some 3]]]⟩]

/-- Dimensionality-1 ReplicateSet (K = 2) with NaN at replicate 0,
coordinate 0, in `error`. -/
def nanRepsA : List (Replicate PF) :=
  [⟨Data.d1 [some 1, some 2], Data.d1 [none, some 0],
      Data.d1 [some 1, some 1]⟩,
   ⟨Data.d1 [some 1, some 2], Data.d1 [some 0, some 0],
      Data.d1 [some 1, some 1]⟩]

/-- Dimensionality-1 ReplicateSet (K = 2) with NaN at replicate 1,
coordinate 1, in `destimated`. -/
def nanRepsB : List (Replicate PF) :=
  [⟨Data.d1 [some 1, some 2], Data.d1 [some 0, some 0],
      Data.d1 [some 1, some 1]⟩,
   ⟨Data.d1 [some 1, some 2], Data.d1 [some 0, some 0],
      Data.d1 [some 1, none]⟩]

/-- Two scalar replicates with estimates 1 and 3 (errors 0, destimated 1). -/
def estRepsA : List (Replicate PF) :=
  [⟨Data.d0 (some 1), Data.d0 (some 0), Data.d0 (some 1)⟩,
   ⟨Data.d0 (some 3), Data.d0 (some 0), Data.d0 (some 1)⟩]

/-- As `estRepsA` but with estimates 2 and 6: identical `error` and
`destimated`, different `estimated`. -/
def estRepsB : List (Replicate PF) :=
  [⟨Data.d0 (some 2), Data.d0 (some 0), Data.d0 (some 1)⟩,
   ⟨Data.d0 (some 6), Data.d0 (some 0), Data.d0 (some 1)⟩]

/-- Two dimensionality-2 replicates (K = 2); the `estimated` entries at the
diagonal coordinate (0,0) average to 5 and at the upper-triangle
coordinate (0,1) to 1. -/
def d2Reps : List (Replicate PF) :=
  [⟨Data.d2 [[some 4, some 1], [some 2, some 3]],
      Data.d2 [[some 0, some 0], [some 0, some 0]],
      Data.d2 [[some 1, some 1], [some 1, some 1]]⟩,
   ⟨Data.d2 [[some 6, some 1], [some 2, some 3]],
      Data.d2 [[some 0, some 0], [some 0, some 0]],
      Data.d2 [[some 1, some 1], [some 1, some 1]]⟩]

/-- A NaN-free dimensionality-1 ReplicateSet (K = 2) with nonnegative
`destimated`. -/
def cleanReps : List (Replicate PF) :=
  [⟨Data.d1 [some 1, some 2], Data.d1 [some 1, some (-2)],
      Data.d1 [some 1, some 2]⟩,
   ⟨Data.d1 [some 1, some 2], Data.d1 [some 0, some 5],
      Data.d1 [some 1, some 0]⟩]

/-- The boolean coverage test of one visited pair at multiplier `alpha`:
`abs(error) <= alpha * destimated`, false on NaN (which in the source
raises first; used only to count the non-NaN case). -/
def passB (alpha : ℚ) (it : PF × PF) : Bool :=
  match it with
  | (some ev, some dv) => decide (|ev| ≤ alpha * dv)
  | _ => false

/-- The claim C8 precondition: every `error` entry is an actual value (no
NaN) and every `destimated` entry is an actual nonnegative value. -/
def cleanNonneg (replicates : List (Replicate PF)) : Prop :=
  ∀ r ∈ replicates, r.error.all Option.isSome = true ∧
    r.destimated.all
      (fun x => x.isSome && decide (0 ≤ x.getD 0)) = true

/-- `d` is a `K x K` matrix. -/
def isMatB (K : ℕ) (d : Data PF) : Bool :=
  match d with
  | .d2 m => m.length == K && m.all (fun row => row.length == K)
  | _ => false

/-- The value of one alpha iteration of the sweep on NaN-free items, in
closed form: `a` and `b` are the pseudo-count 1 plus the number of visited
pairs passing (respectively failing) the coverage test. -/
def sweepRowOk (betaPpf : ℚ → ℚ → ℚ → ℚ) (sqrtQ : ℚ → ℚ)
    (items : List (PF × PF)) (alpha : ℚ) : AlphaRow :=
  let a : ℚ := 1 + (items.countP (passB alpha) : ℚ)
  let b : ℚ := 1 + (items.countP (fun it => !passB alpha it) : ℚ)
  { Pobs := a / (a + b)
    Plow := betaPpf (1/40) a b
    Phigh := betaPpf (39/40) a b
    dPobs := sqrtQ (a * b / ((a + b) ^ 2 * (a + b + 1))) }

/-- The rescaling of claim C9: multiply `error` and `destimated` of a
replicate by the same scalar `c`, leaving `estimated` unchanged. -/
def scaleReplicate (c : ℚ) (r : Replicate ℚ) : Replicate ℚ :=
  ⟨r.estimated, r.error.map (fun e => c * e), r.destimated.map (fun s => c * s)⟩

theorem getD_replicate_zero (n i : ℕ) :
    (List.replicate n (0 : ℚ)).getD i 0 = 0 := by
  rcases lt_or_ge i n with h | h
  · rw [List.getD_eq_getElem _ _ (by simpa using h)]
    exact List.getElem_replicate _ _
  · exact List.getD_eq_default _ _ (by simpa using h)

theorem sortQ_adjacent (l : List ℚ) (i : ℕ) (h : i + 1 < (sortQ l).length) :
    (sortQ l).getD i 0 ≤ (sortQ l).getD (i + 1) 0 := by
  have hs : List.Sorted (· ≤ ·) (sortQ l) := List.sorted_insertionSort _ l
  have hc := (List.chain'_iff_get).1 hs.chain'
  have h1 : i < (sortQ l).length := Nat.lt_of_succ_lt h
  rw [List.getD_eq_getElem _ _ h1, List.getD_eq_getElem _ _ h]
  simpa using hc i (by omega)

theorem allP_map_const {α β : Type} (P : β → Prop) (f : α → β)
    (hf : ∀ a, P (f a)) (d : Data α) : Data.AllP P (Data.map f d) := by
  cases d <;> simp [Data.map, Data.AllP] <;> intros <;> exact hf _

/-- C7: the output of the order-statistics normalizer is, at every
coordinate, sorted ascending along the replicate axis:
`normalized[i] ≤ normalized[i+1]` for every adjacent pair of positions in
that coordinate's column. -/
theorem orderReplicates_sorted_per_coordinate
    (replicates : List (Replicate ℚ)) (K : ℕ) :
    Data.AllP (fun col => ∀ i, i + 1 < col.length →
      col.getD i 0 ≤ col.getD (i + 1) 0)
      (OrderReplicatesCore replicates K) := by
  unfold OrderReplicatesCore
  cases hσ : (replicates.headD default).destimated with
  | d0 s =>
      intro i h
      exact sortQ_adjacent _ _ h
  | d1 sv =>
      intro col hcol i h
      simp only [List.mem_map] at hcol
      obtain ⟨j, _, rfl⟩ := hcol
      exact sortQ_adjacent _ _ h
  | d2 sm =>
      intro row hrow col hcol i h
      simp only [List.mem_map] at hrow
      obtain ⟨j, _, rfl⟩ := hrow
      simp only [List.mem_map] at hcol
      obtain ⟨k, _, rfl⟩ := hcol
      exact sortQ_adjacent _ _ h
  | d3 t =>
      refine allP_map_const _ _ (fun a i h => ?_) _
      simp [getD_replicate_zero]

/-- C4: for every input whatsoever, `OrderReplicates` raises
`NameError` on the unbound global `np` before computing anything, and
`AndersonDarling`, which calls `OrderReplicates` first, likewise never
returns a result. -/
theorem orderReplicates_always_nameError :
    (∀ (replicates : List (Replicate ℚ)) (K : ℕ),
      OrderReplicates replicates K = Except.error PyError.nameErrorNp) ∧
    (∀ (cdf logQ : ℚ → ℚ) (replicates : List (Replicate ℚ)) (K : ℕ),
      AndersonDarling cdf logQ replicates K =
        Except.error PyError.nameErrorNp) :=
  ⟨fun _ _ => rfl, fun _ _ _ _ => rfl⟩

theorem mask_list_getD (sv av : List ℚ) (i : ℕ)
    (h : i < (List.zipWith (fun s a => if s = 0 then 0 else a) sv av).length)
    (hs : sv.getD i 1 = 0) :
    (List.zipWith (fun s a => if s = 0 then 0 else a) sv av).getD i 1 = 0 := by
  have hsv : i < sv.length := by
    rw [List.length_zipWith] at h
    exact lt_of_lt_of_le h inf_le_left
  rw [List.getD_eq_getElem _ _ h, List.getElem_zipWith]
  rw [List.getD_eq_getElem _ _ hsv] at hs
  simp [hs]

theorem zipWith_getD_in {α β γ : Type} (f : α → β → γ) (l₁ : List α)
    (l₂ : List β) (i : ℕ) (d₁ : α) (d₂ : β) (d : γ)
    (h : i < (List.zipWith f l₁ l₂).length) :
    (List.zipWith f l₁ l₂).getD i d = f (l₁.getD i d₁) (l₂.getD i d₂) := by
  have h₁ : i < l₁.length := by
    rw [List.length_zipWith] at h
    exact lt_of_lt_of_le h inf_le_left
  have h₂ : i < l₂.length := by
    rw [List.length_zipWith] at h
    exact lt_of_lt_of_le h inf_le_right
  rw [List.getD_eq_getElem _ _ h, List.getD_eq_getElem _ _ h₁,
    List.getD_eq_getElem _ _ h₂, List.getElem_zipWith]

theorem mask_list2 (sm am : List (List ℚ)) (i j : ℕ)
    (hi : i < (List.zipWith
      (List.zipWith (fun s a => if s = 0 then 0 else a)) sm am).length)
    (hj : j < ((List.zipWith
      (List.zipWith (fun s a => if s = 0 then 0 else a)) sm am).getD
        i []).length)
    (hs : (sm.getD i []).getD j 1 = 0) :
    ((List.zipWith (List.zipWith (fun s a => if s = 0 then 0 else a))
      sm am).getD i []).getD j 1 = 0 := by
  rw [zipWith_getD_in (List.zipWith (fun s a => if s = 0 then 0 else a))
    sm am i [] [] [] hi] at hj ⊢
  exact mask_list_getD _ _ _ hj hs

theorem mask_list3 (st au : List (List (List ℚ))) (i j k : ℕ)
    (hi : i < (List.zipWith (List.zipWith
      (List.zipWith (fun s a => if s = 0 then 0 else a))) st au).length)
    (hj : j < ((List.zipWith (List.zipWith
      (List.zipWith (fun s a => if s = 0 then 0 else a))) st au).getD
        i []).length)
    (hk : k < (((List.zipWith (List.zipWith
      (List.zipWith (fun s a => if s = 0 then 0 else a))) st au).getD
        i []).getD j []).length)
    (hs : ((st.getD i []).getD j []).getD k 1 = 0) :
    (((List.zipWith (List.zipWith
      (List.zipWith (fun s a => if s = 0 then 0 else a))) st au).getD
        i []).getD j []).getD k 1 = 0 := by
  rw [zipWith_getD_in (List.zipWith
    (List.zipWith (fun s a => if s = 0 then 0 else a)))
    st au i [] [] [] hi] at hj hk ⊢
  rw [zipWith_getD_in (List.zipWith (fun s a => if s = 0 then 0 else a))
    (st.getD i []) (au.getD i []) j [] [] [] hj] at hk ⊢
  exact mask_list_getD _ _ _ hk hs

/-- C10: at every coordinate where replicate 0's `destimated` is exactly
zero, the Anderson-Darling statistic is exactly zero, whatever the error
values (the `A2[zerosigma] = 0` forcing). -/
theorem andersonDarling_zero_sigma (cdf logQ : ℚ → ℚ)
    (replicates : List (Replicate ℚ)) (K : ℕ) :
    maskedZero ((replicates.headD default).destimated)
      (AndersonDarlingCore cdf logQ replicates K) := by
  unfold AndersonDarlingCore
  cases hσ : (replicates.headD default).destimated with
  | d0 s =>
      simp only [hσ, OrderReplicatesCore, Data.map, Data.zipWith, maskedZero]
      intro hs
      simp [hs]
  | d1 sv =>
      simp only [hσ, OrderReplicatesCore, Data.map, Data.zipWith, maskedZero]
      intro i hi hs
      exact mask_list_getD _ _ _ hi hs
  | d2 sm =>
      simp only [hσ, OrderReplicatesCore, Data.map, Data.zipWith, maskedZero]
      intro i j hi hj hs
      exact mask_list2 _ _ _ _ hi hj hs
  | d3 t =>
      cases hε : (replicates.headD default).error with
      | d0 x =>
          simp only [hσ, hε, OrderReplicatesCore, Data.map, Data.zipWith,
            maskedZero]
      | d1 v =>
          simp only [hσ, hε, OrderReplicatesCore, Data.map, Data.zipWith,
            maskedZero]
      | d2 m =>
          simp only [hσ, hε, OrderReplicatesCore, Data.map, Data.zipWith,
            maskedZero]
      | d3 u =>
          simp only [hσ, hε, OrderReplicatesCore, Data.map, Data.zipWith,
            maskedZero]
          intro i j k hi hj hk hs
          exact mask_list3 _ _ _ _ _ hi hj hk hs

/-- C1: the Anderson-Darling accumulation uses the 0-based loop index
directly in the weight terms, so the computed statistic differs from the
classical 1-based formula the spec mandates.  Evaluated at a 2-replicate
scalar input whose sorted normalized column is `[0, 0]`, with stand-ins
for the external `scipy.stats.norm.cdf` (constantly 1/3) and `np.log`
(the identity): the code produces `-14/3`, the classical formula `-4`. -/
theorem andersonDarling_weights_eval :
    OrderReplicatesCore adWeightReps 1 = Data.d0 [0, 0] ∧
    AndersonDarlingCore (fun _ => 1/3) (fun q => q) adWeightReps 1
      = Data.d0 (-14/3) ∧
    andersonDarlingClassicalSpec (fun _ => 1/3) (fun q => q) 2 [0, 0] = -4 ∧
    (-14/3 : ℚ) ≠ -4 := by
  refine ⟨?_, ?_, ?_, by norm_num⟩
  · norm_num [adWeightReps, OrderReplicatesCore, sortQ, List.insertionSort,
      List.orderedInsert, corrSigma, Data.scal]
  · norm_num [adWeightReps, AndersonDarlingCore, OrderReplicatesCore, adSum,
      adTerm, sortQ, List.insertionSort, List.orderedInsert, corrSigma,
      Data.scal, Data.map, Data.zipWith, List.range_succ]
  · norm_num [andersonDarlingClassicalSpec, List.range_succ]

theorem testedItems_of_gt2 (d K : ℕ) (replicates : List (Replicate PF))
    (hd : 2 < d) : testedItems d K replicates = [] := by
  obtain ⟨e, rfl⟩ : ∃ e, d = e + 3 := ⟨d - 3, by omega⟩
  induction replicates with
  | nil => rfl
  | cons r rs ih =>
      simp only [testedItems, List.flatMap_cons] at ih ⊢
      simp only [List.nil_append]
      exact ih

theorem mapE_ok_exists {α β : Type} (f : α → Except PyError β) (l : List α)
    (h : ∀ a ∈ l, ∃ b, f a = Except.ok b) :
    ∃ bs, mapE f l = Except.ok bs := by
  induction l with
  | nil => exact ⟨[], rfl⟩
  | cons a l ih =>
      obtain ⟨b, hb⟩ := h a (List.mem_cons_self a l)
      obtain ⟨bs, hbs⟩ := ih (fun x hx => h x (List.mem_cons_of_mem a hx))
      exact ⟨b :: bs, by simp [mapE, hb, hbs]⟩

/-- C5 (counterexample): no ShapeError for dimensionality 3.  The
normalizer's arithmetic returns an all-zeros array (a computed value, not
a failure); `generateConfidenceIntervals` completes its sweep and then
fails with `UnboundLocalError` on `vals`, not with any shape check; and
`AndersonDarling` fails only with the unrelated `NameError` on `np`. -/
theorem dim3_no_shapeError_cex :
    OrderReplicatesCore dim3Reps 1 = Data.d3 [[[[0]]]] ∧
    generateConfidenceIntervals (fun _ _ _ => 0) (fun q => q) (fun q => q)
      dim3RepsPF 1 = Except.error PyError.unboundVals ∧
    AndersonDarling (fun q => q) (fun q => q) dim3Reps 1
      = Except.error PyError.nameErrorNp := by
  exact ⟨rfl, rfl, rfl⟩

/-- C5 (amended): for dimensionality outside {0, 1, 2} no ShapeError is
raised: the normalizer's arithmetic silently returns an array whose every
column is all zeros, and `generateConfidenceIntervals` counts nothing in
its sweep and then fails with `UnboundLocalError` on the local `vals`
rather than any shape error. -/
theorem dim3_behavior :
    (∀ (replicates : List (Replicate ℚ)) (K : ℕ),
      ((replicates.headD default).destimated).ndim = 3 →
      Data.AllP (fun col => ∀ q ∈ col, q = 0)
        (OrderReplicatesCore replicates K)) ∧
    (∀ (betaPpf : ℚ → ℚ → ℚ → ℚ) (erfQ sqrtQ : ℚ → ℚ)
      (replicates : List (Replicate PF)) (K : ℕ),
      ((replicates.headD default).estimated).ndim = 3 →
      generateConfidenceIntervals betaPpf erfQ sqrtQ replicates K =
        Except.error PyError.unboundVals) := by
  constructor
  · intro replicates K hdim
    unfold OrderReplicatesCore
    cases hσ : (replicates.headD default).destimated with
    | d0 s => rw [hσ] at hdim; simp [Data.ndim] at hdim
    | d1 sv => rw [hσ] at hdim; simp [Data.ndim] at hdim
    | d2 sm => rw [hσ] at hdim; simp [Data.ndim] at hdim
    | d3 t =>
        exact allP_map_const _ _
          (fun a q hq => List.eq_of_mem_replicate hq) _
  · intro betaPpf erfQ sqrtQ replicates K hdim
    have hti : testedItems 3 K replicates = [] :=
      testedItems_of_gt2 3 K replicates (by omega)
    obtain ⟨bs, hbs⟩ := mapE_ok_exists (sweepRow betaPpf sqrtQ []) alphaValues
      (fun a _ => ⟨_, rfl⟩)
    simp only [generateConfidenceIntervals, hdim, hti, hbs]
    rfl

/-- Witness for `dim3_behavior` at the concrete dimensionality-3 inputs. -/
theorem dim3_behavior_witness :
    ((dim3Reps.headD default).destimated).ndim = 3 ∧
    ((dim3RepsPF.headD default).estimated).ndim = 3 ∧
    Data.AllP (fun col => ∀ q ∈ col, q = 0) (OrderReplicatesCore dim3Reps 2) ∧
    generateConfidenceIntervals (fun _ _ _ => 1/2) (fun q => q) (fun q => q)
      dim3RepsPF 2 = Except.error PyError.unboundVals :=
  ⟨rfl, rfl, dim3_behavior.1 dim3Reps 2 rfl,
    dim3_behavior.2 (fun _ _ _ => 1/2) (fun q => q) (fun q => q)
      dim3RepsPF 2 rfl⟩



theorem tallyAB_isnan (alpha : ℚ) :
    ∀ (items : List (PF × PF)),
      (∃ it ∈ items, it.1 = none ∨ it.2 = none) →
      ∀ ab, tallyAB alpha items ab = Except.error PyError.raiseIsnan := by
  intro items
  induction items with
  | nil =>
      intro h ab
      simp at h
  | cons it rest ih =>
      intro h ab
      obtain ⟨e, d⟩ := it
      obtain ⟨a, b⟩ := ab
      cases e with
      | none => rfl
      | some ev =>
          cases d with
          | none => rfl
          | some dv =>
              have hrest : ∃ x ∈ rest, x.1 = none ∨ x.2 = none := by
                rcases h with ⟨x, hmem, hx⟩
                rcases List.mem_cons.1 hmem with rfl | hm
                · simp at hx
                · exact ⟨x, hm, hx⟩
              simp only [tallyAB]
              split
              · exact ih hrest _
              · exact ih hrest _

theorem mapE_sweep_isnan (betaPpf : ℚ → ℚ → ℚ → ℚ) (sqrtQ : ℚ → ℚ)
    (items : List (PF × PF))
    (h : ∃ it ∈ items, it.1 = none ∨ it.2 = none) :
    ∀ (l : List ℚ), l ≠ [] →
      mapE (sweepRow betaPpf sqrtQ items) l =
        Except.error PyError.raiseIsnan := by
  intro l hl
  cases l with
  | nil => exact absurd rfl hl
  | cons alpha alphas =>
      have hsw : sweepRow betaPpf sqrtQ items alpha =
          Except.error PyError.raiseIsnan := by
        simp only [sweepRow, tallyAB_isnan alpha items h (1, 1)]
      simp [mapE, hsw]

theorem gci_isnan (betaPpf : ℚ → ℚ → ℚ → ℚ) (erfQ sqrtQ : ℚ → ℚ)
    (replicates : List (Replicate PF)) (K : ℕ)
    (h : ∃ it ∈ testedItems ((replicates.headD default).estimated.ndim) K
      replicates, it.1 = none ∨ it.2 = none) :
    generateConfidenceIntervals betaPpf erfQ sqrtQ replicates K =
      Except.error PyError.raiseIsnan := by
  have hne : alphaValues ≠ [] := by
    simp [alphaValues, nalpha]
  have hm := mapE_sweep_isnan betaPpf sqrtQ
    (testedItems ((replicates.headD default).estimated.ndim) K replicates)
    h alphaValues hne
  simp only [generateConfidenceIntervals, hm]

/-- C3 (amended): whenever any `error` or `destimated` value entering the
coverage test is NaN, `generateConfidenceIntervals` fails immediately by
raising (the `raise "isnan"` statement), so a NaN never propagates into
returned coverage results; but the raised value is the same bare `"isnan"`
whatever the offending replicate or coordinate (those are only printed to
stdout, and the coordinate is not printed at all). -/
theorem nan_fails_fast (betaPpf : ℚ → ℚ → ℚ → ℚ) (erfQ sqrtQ : ℚ → ℚ)
    (replicates : List (Replicate PF)) (K : ℕ)
    (h : ∃ it ∈ testedItems ((replicates.headD default).estimated.ndim) K
      replicates, it.1 = none ∨ it.2 = none) :
    generateConfidenceIntervals betaPpf erfQ sqrtQ replicates K =
      Except.error PyError.raiseIsnan :=
  gci_isnan betaPpf erfQ sqrtQ replicates K h

/-- Witness for `nan_fails_fast` at a concrete NaN input. -/
theorem nan_fails_fast_witness :
    (∃ it ∈ testedItems ((nanRepsA.headD default).estimated.ndim) 2 nanRepsA,
      it.1 = none ∨ it.2 = none) ∧
    generateConfidenceIntervals (fun _ _ _ => 1/2) (fun q => q) (fun q => q)
      nanRepsA 2 = Except.error PyError.raiseIsnan :=
  ⟨⟨(none, some 1), List.mem_cons_self _ _, Or.inl rfl⟩,
    nan_fails_fast (fun _ _ _ => 1/2) (fun q => q) (fun q => q) nanRepsA 2
      ⟨(none, some 1), List.mem_cons_self _ _, Or.inl rfl⟩⟩

/-- C3 (counterexample): two inputs whose offending NaN sits at different
replicates and different coordinates (replicate 0, coordinate 0, `error`
versus replicate 1, coordinate 1, `destimated`) make the call fail with
the identical raised value, so the failure does not identify the offending
replicate index or coordinate. -/
theorem nan_error_payload_cex :
    generateConfidenceIntervals (fun _ _ _ => 0) (fun q => q) (fun q => q)
      nanRepsA 2 = Except.error PyError.raiseIsnan ∧
    generateConfidenceIntervals (fun _ _ _ => 0) (fun q => q) (fun q => q)
      nanRepsB 2 = Except.error PyError.raiseIsnan :=
  ⟨gci_isnan _ _ _ nanRepsA 2
      ⟨(none, some 1), List.mem_cons_self _ _, Or.inl rfl⟩,
    gci_isnan _ _ _ nanRepsB 2
      ⟨(some 0, none), by
        show (some 0, none) ∈ testedItems 1 2 nanRepsB
        simp only [testedItems, nanRepsB, Data.vec1, List.flatMap_cons,
          List.flatMap_nil, List.append_nil, List.mem_append, List.mem_map,
          List.mem_range]
        exact Or.inr ⟨1, by norm_num, rfl⟩, Or.inr rfl⟩⟩

theorem testedItems_congr (dim K : ℕ)
    (replicates replicates2 : List (Replicate PF))
    (h : List.Forall₂ (fun r r2 => r.error = r2.error ∧
      r.destimated = r2.destimated) replicates replicates2) :
    testedItems dim K replicates = testedItems dim K replicates2 := by
  induction h with
  | nil => rfl
  | cons h1 h2 ih =>
      simp only [testedItems, List.flatMap_cons] at ih ⊢
      rw [ih]
      obtain ⟨he, hd⟩ := h1
      rcases dim with _ | _ | _ | d <;> rw [he, hd]

theorem gci_est_congr (betaPpf : ℚ → ℚ → ℚ → ℚ) (erfQ sqrtQ : ℚ → ℚ)
    (replicates replicates2 : List (Replicate PF)) (K : ℕ)
    (h : List.Forall₂ (fun r r2 => r.error = r2.error ∧
      r.destimated = r2.destimated) replicates replicates2)
    (hdim : (replicates.headD default).estimated.ndim =
      (replicates2.headD default).estimated.ndim) :
    generateConfidenceIntervals betaPpf erfQ sqrtQ replicates K =
      generateConfidenceIntervals betaPpf erfQ sqrtQ replicates2 K := by
  simp only [generateConfidenceIntervals]
  rw [hdim, testedItems_congr _ _ _ _ h]

/-- C2 (amended): the value returned by `generateConfidenceIntervals` is
the 6-component tuple `(alpha_values, Pobs, Plow, Phigh, dPobs, Pnorm)`
and contains no summary statistics: the returned value (success or
failure) is entirely determined by the replicates' `error`/`destimated`
data and the dimensionality, so replicate sets differing only in their
`estimated` values - which determine the summary statistics - return the
very same value. -/
theorem generateConfidenceIntervals_independent_of_estimated
    (betaPpf : ℚ → ℚ → ℚ → ℚ) (erfQ sqrtQ : ℚ → ℚ)
    (replicates replicates2 : List (Replicate PF)) (K : ℕ)
    (h : List.Forall₂ (fun r r2 => r.error = r2.error ∧
      r.destimated = r2.destimated) replicates replicates2)
    (hdim : (replicates.headD default).estimated.ndim =
      (replicates2.headD default).estimated.ndim) :
    generateConfidenceIntervals betaPpf erfQ sqrtQ replicates K =
      generateConfidenceIntervals betaPpf erfQ sqrtQ replicates2 K :=
  gci_est_congr betaPpf erfQ sqrtQ replicates replicates2 K h hdim

/-- Witness for `generateConfidenceIntervals_independent_of_estimated` at
the concrete pair `estRepsA`/`estRepsB`. -/
theorem generateConfidenceIntervals_independent_of_estimated_witness :
    List.Forall₂ (fun r r2 => r.error = r2.error ∧
      r.destimated = r2.destimated) estRepsA estRepsB ∧
    (estRepsA.headD default).estimated.ndim =
      (estRepsB.headD default).estimated.ndim ∧
    generateConfidenceIntervals (fun _ _ _ => 1/2) (fun q => q) (fun q => q)
      estRepsA 1 =
      generateConfidenceIntervals (fun _ _ _ => 1/2) (fun q => q) (fun q => q)
        estRepsB 1 :=
  ⟨List.Forall₂.cons ⟨rfl, rfl⟩ (List.Forall₂.cons ⟨rfl, rfl⟩
      List.Forall₂.nil), rfl,
    generateConfidenceIntervals_independent_of_estimated
      (fun _ _ _ => 1/2) (fun q => q) (fun q => q) estRepsA estRepsB 1
      (List.Forall₂.cons ⟨rfl, rfl⟩ (List.Forall₂.cons ⟨rfl, rfl⟩
        List.Forall₂.nil)) rfl⟩

/-- C2 (counterexample): `estRepsA` and `estRepsB` have different summary
statistics (their average estimates differ: 2 versus 4), yet
`generateConfidenceIntervals` returns exactly the same value for both -
so the summary statistics are not part of the returned value. -/
theorem generateConfidenceIntervals_return_omits_summary_cex :
    generateConfidenceIntervals (fun _ _ _ => 0) (fun q => q) (fun q => q)
      estRepsA 1 =
      generateConfidenceIntervals (fun _ _ _ => 0) (fun q => q) (fun q => q)
        estRepsB 1 ∧
    summaryStatistics (fun q => q) estRepsA 1 ≠
      summaryStatistics (fun q => q) estRepsB 1 := by
  constructor
  · exact gci_est_congr _ _ _ _ _ 1
      (List.Forall₂.cons ⟨rfl, rfl⟩ (List.Forall₂.cons ⟨rfl, rfl⟩
        List.Forall₂.nil)) rfl
  · intro h
    have h1 : (summaryStatistics (fun q => q) estRepsA 1).aveval =
        Data.d0 (some 2) := by
      show meanAxis0 (valsRows ((estRepsA.headD default).estimated.ndim) 1
        estRepsA (fun r => r.estimated)) = Data.d0 (some 2)
      norm_num [valsRows, meanAxis0, Data.map, Data.zipWith, pyAdd, pyDiv,
        estRepsA, Data.ndim]
    have h2 : (summaryStatistics (fun q => q) estRepsB 1).aveval =
        Data.d0 (some 4) := by
      show meanAxis0 (valsRows ((estRepsB.headD default).estimated.ndim) 1
        estRepsB (fun r => r.estimated)) = Data.d0 (some 4)
      norm_num [valsRows, meanAxis0, Data.map, Data.zipWith, pyAdd, pyDiv,
        estRepsB, Data.ndim]
    rw [h, h2] at h1
    norm_num at h1

theorem isMatB_spec (K : ℕ) (d : Data PF) (h : isMatB K d = true) :
    ∃ m, d = Data.d2 m ∧ m.length = K ∧ ∀ row ∈ m, row.length = K := by
  cases d with
  | d2 m =>
      simp only [isMatB, Bool.and_eq_true, beq_iff_eq, List.all_eq_true] at h
      exact ⟨m, rfl, h.1, h.2⟩
  | d0 x => simp [isMatB] at h
  | d1 v => simp [isMatB] at h
  | d3 t => simp [isMatB] at h

theorem getD2_map_in (f : PF → PF) (m : List (List PF)) (i j : ℕ)
    (hi : i < m.length) (hj : j < (m.getD i []).length) (d d' : PF) :
    getD2 (m.map (List.map f)) i j d = f (getD2 m i j d') := by
  unfold getD2
  rw [List.getD_eq_getElem _ _ hi] at hj
  have hi2 : i < (m.map (List.map f)).length := by simpa using hi
  have hj2 : j < (List.map f m[i]).length := by simpa using hj
  rw [List.getD_eq_getElem _ _ hi2, List.getElem_map,
    List.getD_eq_getElem _ _ hj2, List.getElem_map,
    List.getD_eq_getElem _ _ hi, List.getD_eq_getElem _ _ hj]

theorem foldl_zip_d2 (K : ℕ) (rows : List (Data PF)) :
    ∀ (init : List (List PF)),
      (∀ d ∈ rows, isMatB K d = true) →
      init.length = K → (∀ row ∈ init, row.length = K) →
      ∃ msum, rows.foldl (Data.zipWith pyAdd) (Data.d2 init) =
          Data.d2 msum ∧
        msum.length = K ∧ (∀ row ∈ msum, row.length = K) ∧
        ∀ i j, i < K → j < K →
          getD2 msum i j (some 0) =
            rows.foldl (fun acc d => pyAdd acc (getD2 d.mat2 i j (some 0)))
              (getD2 init i j (some 0)) := by
  induction rows with
  | nil =>
      intro init _ h1 h2
      exact ⟨init, rfl, h1, h2, fun i j _ _ => rfl⟩
  | cons d rows ih =>
      intro init hmat hlen hrows
      obtain ⟨md, hd, hdlen, hdrows⟩ :=
        isMatB_spec K d (hmat d (List.mem_cons_self _ _))
      have hstep : Data.zipWith pyAdd (Data.d2 init) d =
          Data.d2 (List.zipWith (List.zipWith pyAdd) init md) := by
        rw [hd]; rfl
      have hzlen : (List.zipWith (List.zipWith pyAdd) init md).length = K := by
        rw [List.length_zipWith, hlen, hdlen, min_self]
      have hzrows : ∀ row ∈ List.zipWith (List.zipWith pyAdd) init md,
          row.length = K := by
        intro row hrow
        obtain ⟨i, hilt, heq⟩ := List.mem_iff_getElem.1 hrow
        have hii : i < init.length := by
          rw [List.length_zipWith] at hilt
          exact lt_of_lt_of_le hilt inf_le_left
        have hmi : i < md.length := by
          rw [List.length_zipWith] at hilt
          exact lt_of_lt_of_le hilt inf_le_right
        rw [← heq, List.getElem_zipWith, List.length_zipWith,
          hrows _ (List.getElem_mem hii), hdrows _ (List.getElem_mem hmi),
          min_self]
      obtain ⟨msum, hsum, h1, h2, h3⟩ := ih
        (List.zipWith (List.zipWith pyAdd) init md)
        (fun x hx => hmat x (List.mem_cons_of_mem d hx)) hzlen hzrows
      refine ⟨msum, ?_, h1, h2, ?_⟩
      · rw [List.foldl_cons, hstep, hsum]
      · intro i j hi hj
        rw [List.foldl_cons, h3 i j hi hj]
        have hi1 : i < (List.zipWith (List.zipWith pyAdd) init md).length := by
          rw [hzlen]; exact hi
        have hi2 : i < init.length := by rw [hlen]; exact hi
        have hi3 : i < md.length := by rw [hdlen]; exact hi
        have hj3 : j < (List.zipWith pyAdd (init.getD i [])
            (md.getD i [])).length := by
          rw [List.length_zipWith, List.getD_eq_getElem _ _ hi2,
            List.getD_eq_getElem _ _ hi3, hrows _ (List.getElem_mem hi2),
            hdrows _ (List.getElem_mem hi3), min_self]
          exact hj
        congr 1
        unfold getD2
        rw [zipWith_getD_in (List.zipWith pyAdd) init md i [] [] [] hi1,
          zipWith_getD_in pyAdd (init.getD i []) (md.getD i []) j
            (some 0) (some 0) (some 0) hj3, hd]
        rfl

/-- C6 (amended): for dimensionality 2 with `K >= 2` the summary arrays
are populated at every coordinate - diagonal and upper triangle included -
because each lower-triangle loop iteration assigns the whole `K x K`
slice: the average-estimate array holds, at every `(i, j)` with
`i, j < K`, the mean over replicates of `estimated[i, j]`.  (For `K < 2`
the loop body never runs and the arrays remain all zeros.) -/
theorem summary_fully_populated (sqrtQ : ℚ → ℚ)
    (replicates : List (Replicate PF)) (K : ℕ) (hK : 2 ≤ K)
    (hne : replicates ≠ [])
    (hshape : ∀ r ∈ replicates, isMatB K r.estimated = true) :
    ∀ i j, i < K → j < K →
      getD2 ((summaryStatistics sqrtQ replicates K).aveval).mat2 i j
          (some 0) =
        pyDiv ((replicates.map
            (fun r => getD2 r.estimated.mat2 i j (some 0))).foldl
          pyAdd (some 0)) (some (replicates.length : ℚ)) := by
  intro i j hi hj
  obtain ⟨r0, rest, rfl⟩ : ∃ r0 rest, replicates = r0 :: rest := by
    cases replicates with
    | nil => exact absurd rfl hne
    | cons r0 rest => exact ⟨r0, rest, rfl⟩
  obtain ⟨m0, hm0, hm0len, hm0rows⟩ :=
    isMatB_spec K _ (hshape r0 (List.mem_cons_self _ _))
  have hdim : ((r0 :: rest).headD default).estimated.ndim = 2 := by
    simp [List.headD, hm0, Data.ndim]
  show getD2 ((meanAxis0 (valsRows
      (((r0 :: rest).headD default).estimated.ndim) K (r0 :: rest)
      (fun r => r.estimated))).mat2) i j (some 0) = _
  rw [hdim]
  have hvals : valsRows 2 K (r0 :: rest) (fun r => r.estimated) =
      (r0 :: rest).map (fun r => r.estimated) := by
    simp [valsRows, hK]
  rw [hvals]
  unfold meanAxis0
  have hinit : ((((r0 :: rest).map
      (fun (r : Replicate PF) => r.estimated)).headD
      default).map (fun _ => (some 0 : PF))) =
      Data.d2 (m0.map (List.map (fun _ => (some 0 : PF)))) := by
    simp [List.map_cons, List.headD_cons, hm0, Data.map]
  rw [hinit]
  have hz1 : (m0.map (List.map (fun _ => (some 0 : PF)))).length = K := by
    simpa using hm0len
  have hz2 : ∀ row ∈ m0.map (List.map (fun _ => (some 0 : PF))),
      row.length = K := by
    intro row hrow
    obtain ⟨row0, hr0, rfl⟩ := List.mem_map.1 hrow
    simpa using hm0rows row0 hr0
  have hmats : ∀ d ∈ (r0 :: rest).map (fun r => r.estimated),
      isMatB K d = true := by
    intro d hd
    obtain ⟨r, hr, rfl⟩ := List.mem_map.1 hd
    exact hshape r hr
  obtain ⟨msum, hsum, hs1, hs2, hs3⟩ :=
    foldl_zip_d2 K ((r0 :: rest).map (fun r => r.estimated)) _ hmats hz1 hz2
  rw [hsum]
  simp only [Data.map, Data.mat2]
  have hi1 : i < msum.length := by rw [hs1]; exact hi
  have hj1 : j < (msum.getD i []).length := by
    rw [List.getD_eq_getElem _ _ hi1, hs2 _ (List.getElem_mem hi1)]
    exact hj
  have him0 : i < m0.length := by rw [hm0len]; exact hi
  have hjm0 : j < (m0.getD i []).length := by
    rw [List.getD_eq_getElem _ _ him0, hm0rows _ (List.getElem_mem him0)]
    exact hj
  rw [getD2_map_in _ msum i j hi1 hj1 (some 0) (some 0),
    hs3 i j hi hj,
    getD2_map_in (fun _ => (some 0 : PF)) m0 i j him0 hjm0 (some 0) (some 0)]
  simp [List.foldl_map, List.length_map, Data.mat2.eq_def]

/-- C6 (counterexample): on `d2Reps` (dimensionality 2, K = 2) the
average-estimate summary array is populated at the diagonal coordinate
(0,0) with the computed mean 5 and at the upper-triangle coordinate (0,1)
with the computed mean 1 - not left at the `numpy.zeros` value 0 as
"populated only at the strict lower triangle" would require. -/
theorem summary_diagonal_populated_cex :
    (summaryStatistics (fun q => q) d2Reps 2).aveval =
      Data.d2 [[some 5, some 1], [some 2, some 3]] ∧
    getD2 ((summaryStatistics (fun q => q) d2Reps 2).aveval).mat2 0 0
      (some 0) = some 5 ∧
    getD2 ((summaryStatistics (fun q => q) d2Reps 2).aveval).mat2 0 1
      (some 0) = some 1 ∧
    (some (5 : ℚ) ≠ some 0) ∧ (some (1 : ℚ) ≠ some 0) := by
  have h1 : (summaryStatistics (fun q => q) d2Reps 2).aveval =
      Data.d2 [[some 5, some 1], [some 2, some 3]] := by
    show meanAxis0 (valsRows ((d2Reps.headD default).estimated.ndim) 2 d2Reps
      (fun r => r.estimated)) = _
    norm_num [valsRows, meanAxis0, Data.map, Data.zipWith, pyAdd, pyDiv,
      d2Reps, Data.ndim]
  refine ⟨h1, ?_, ?_, by norm_num, by norm_num⟩
  · rw [h1]; rfl
  · rw [h1]; rfl

/-- Witness for `summary_fully_populated` at `d2Reps`, diagonal
coordinate (0,0). -/
theorem summary_fully_populated_witness :
    2 ≤ 2 ∧ d2Reps ≠ [] ∧ (∀ r ∈ d2Reps, isMatB 2 r.estimated = true) ∧
    getD2 ((summaryStatistics (fun q => q) d2Reps 2).aveval).mat2 0 0
        (some 0) =
      pyDiv ((d2Reps.map (fun r => getD2 r.estimated.mat2 0 0
        (some 0))).foldl pyAdd (some 0)) (some (d2Reps.length : ℚ)) :=
  ⟨le_refl 2, by simp [d2Reps], by decide,
    summary_fully_populated (fun q => q) d2Reps 2 (le_refl 2)
      (by simp [d2Reps]) (by decide) 0 0 (by norm_num) (by norm_num)⟩

theorem mapE_ok_map {α β : Type} (f : α → Except PyError β) (g : α → β)
    (l : List α) (h : ∀ a ∈ l, f a = Except.ok (g a)) :
    mapE f l = Except.ok (l.map g) := by
  induction l with
  | nil => rfl
  | cons a l ih =>
      have ha := h a (List.mem_cons_self a l)
      have hl := ih (fun x hx => h x (List.mem_cons_of_mem a hx))
      simp [mapE, ha, hl]

theorem countP_add_not {α : Type} (p : α → Bool) (l : List α) :
    l.countP p + l.countP (fun a => !p a) = l.length := by
  induction l with
  | nil => simp
  | cons a l ih =>
      by_cases h : p a = true <;>
        simp [List.countP_cons, h] <;> omega

theorem tallyAB_ok (alpha : ℚ) :
    ∀ (items : List (PF × PF)) (a b : ℚ),
      (∀ it ∈ items, it.1.isSome = true ∧ it.2.isSome = true) →
      tallyAB alpha items (a, b) =
        Except.ok (a + (items.countP (passB alpha) : ℚ),
          b + (items.countP (fun it => !passB alpha it) : ℚ)) := by
  intro items
  induction items with
  | nil =>
      intro a b _
      simp [tallyAB]
  | cons it rest ih =>
      intro a b h
      obtain ⟨e, d⟩ := it
      obtain ⟨he, hd⟩ := h _ (List.mem_cons_self _ _)
      rw [Option.isSome_iff_exists] at he hd
      obtain ⟨ev, rfl⟩ := he
      obtain ⟨dv, rfl⟩ := hd
      have hrest := fun x hx => h x (List.mem_cons_of_mem _ hx)
      simp only [tallyAB]
      by_cases hp : |ev| ≤ alpha * dv
      · have hpass : passB alpha (some ev, some dv) = true := by
          simp [passB, hp]
        rw [if_pos hp, ih (a + 1) b hrest]
        simp only [List.countP_cons, hpass, Bool.not_true, if_true, if_false,
          cond_true, cond_false]
        congr 1
        simp only [Prod.mk.injEq]
        constructor <;> push_cast <;> ring
      · have hpass : passB alpha (some ev, some dv) = false := by
          simp [passB, hp]
        rw [if_neg hp, ih a (b + 1) hrest]
        simp only [List.countP_cons, hpass, Bool.not_false, if_true, if_false,
          cond_true, cond_false]
        congr 1
        simp only [Prod.mk.injEq]
        constructor <;> push_cast <;> ring

theorem sweepRow_eq_ok (betaPpf : ℚ → ℚ → ℚ → ℚ) (sqrtQ : ℚ → ℚ)
    (items : List (PF × PF)) (alpha : ℚ)
    (h : ∀ it ∈ items, it.1.isSome = true ∧ it.2.isSome = true) :
    sweepRow betaPpf sqrtQ items alpha =
      Except.ok (sweepRowOk betaPpf sqrtQ items alpha) := by
  simp only [sweepRow, tallyAB_ok alpha items 1 1 h, sweepRowOk]

theorem countP_pass_mono (alpha alpha2 : ℚ) (h : alpha ≤ alpha2)
    (items : List (PF × PF))
    (hd : ∀ it ∈ items, ∃ dv, it.2 = some dv ∧ 0 ≤ dv) :
    items.countP (passB alpha) ≤ items.countP (passB alpha2) := by
  apply List.countP_mono_left
  intro x hx hpx
  obtain ⟨dv, h2, hdv⟩ := hd x hx
  obtain ⟨e, d⟩ := x
  simp only at h2
  subst h2
  cases e with
  | none => simp [passB] at hpx
  | some ev =>
      simp only [passB, decide_eq_true_eq] at hpx ⊢
      exact le_trans hpx (mul_le_mul_of_nonneg_right h hdv)

theorem data_all_scal (p : PF → Bool) (d : Data PF) (hall : d.all p = true)
    (h0 : p (some 0) = true) : p (d.scal (some 0)) = true := by
  cases d with
  | d0 x => simpa [Data.all, Data.scal] using hall
  | d1 v => exact h0
  | d2 m => exact h0
  | d3 t => exact h0

theorem data_all_vecD (p : PF → Bool) (d : Data PF) (i : ℕ)
    (hall : d.all p = true) (h0 : p (some 0) = true) :
    p (d.vec1.getD i (some 0)) = true := by
  cases d with
  | d1 v =>
      show p (v.getD i (some 0)) = true
      rcases lt_or_ge i v.length with h | h
      · rw [List.getD_eq_getElem _ _ h]
        exact List.all_eq_true.1 (by simpa [Data.all] using hall) _
          (List.getElem_mem h)
      · rw [List.getD_eq_default _ _ h]
        exact h0
  | d0 x =>
      show p (([] : List PF).getD i (some 0)) = true
      rw [List.getD_eq_default _ _ (by simp)]
      exact h0
  | d2 m =>
      show p (([] : List PF).getD i (some 0)) = true
      rw [List.getD_eq_default _ _ (by simp)]
      exact h0
  | d3 t =>
      show p (([] : List PF).getD i (some 0)) = true
      rw [List.getD_eq_default _ _ (by simp)]
      exact h0

theorem getD2_nil (p : PF → Bool) (i j : ℕ) (h0 : p (some 0) = true) :
    p (getD2 ([] : List (List PF)) i j (some 0)) = true := by
  unfold getD2
  have h1 : (([] : List (List PF)).getD i []) = [] :=
    List.getD_eq_default _ _ (by simp)
  rw [h1, List.getD_eq_default _ _ (by simp)]
  exact h0

theorem data_all_matD (p : PF → Bool) (d : Data PF) (i j : ℕ)
    (hall : d.all p = true) (h0 : p (some 0) = true) :
    p (getD2 d.mat2 i j (some 0)) = true := by
  cases d with
  | d2 m =>
      show p (getD2 m i j (some 0)) = true
      unfold getD2
      have hall2 : ∀ row ∈ m, ∀ x ∈ row, p x = true := by
        simpa [Data.all] using hall
      rcases lt_or_ge i m.length with h | h
      · rw [List.getD_eq_getElem _ _ h]
        rcases lt_or_ge j (m[i]).length with h2 | h2
        · rw [List.getD_eq_getElem _ _ h2]
          exact hall2 _ (List.getElem_mem h) _ (List.getElem_mem h2)
        · rw [List.getD_eq_default _ _ h2]
          exact h0
      · rw [List.getD_eq_default _ _ h, List.getD_eq_default _ _ (by simp)]
        exact h0
  | d0 x => exact getD2_nil p i j h0
  | d1 v => exact getD2_nil p i j h0
  | d3 t => exact getD2_nil p i j h0

theorem testedItems_clean (dim K : ℕ) (replicates : List (Replicate PF))
    (h : cleanNonneg replicates) :
    ∀ it ∈ testedItems dim K replicates,
      it.1.isSome = true ∧ ∃ dv, it.2 = some dv ∧ 0 ≤ dv := by
  intro it hit
  rw [testedItems, List.mem_flatMap] at hit
  obtain ⟨r, hr, hmem⟩ := hit
  obtain ⟨herr, hdest⟩ := h r hr
  have h0e : Option.isSome (some (0 : ℚ)) = true := rfl
  have h0d : (fun x : PF => x.isSome && decide (0 ≤ x.getD 0)) (some 0)
      = true := by simp
  have hconv : ∀ x : PF,
      (fun x : PF => x.isSome && decide (0 ≤ x.getD 0)) x = true →
      ∃ dv, x = some dv ∧ 0 ≤ dv := by
    intro x hx
    cases x with
    | none => simp at hx
    | some q =>
        refine ⟨q, rfl, ?_⟩
        simpa using hx
  rcases dim with _ | _ | _ | d2
  · simp only [List.mem_singleton] at hmem
    subst hmem
    exact ⟨data_all_scal _ _ herr h0e,
      hconv _ (data_all_scal _ _ hdest h0d)⟩
  · simp only [List.mem_map] at hmem
    obtain ⟨i, _, rfl⟩ := hmem
    exact ⟨data_all_vecD _ _ _ herr h0e,
      hconv _ (data_all_vecD _ _ _ hdest h0d)⟩
  · simp only [List.mem_map] at hmem
    obtain ⟨pq, _, rfl⟩ := hmem
    exact ⟨data_all_matD _ _ _ _ herr h0e,
      hconv _ (data_all_matD _ _ _ _ hdest h0d)⟩
  · simp at hmem

theorem alphaValues_pairwise : alphaValues.Pairwise (· ≤ ·) := by
  unfold alphaValues
  refine List.Pairwise.map _ ?_ (List.pairwise_lt_range nalpha)
  intro a b hab
  have hstep : (0 : ℚ) ≤ (max_alpha - min_alpha) / ((nalpha : ℚ) - 1) := by
    norm_num [max_alpha, min_alpha, nalpha]
  have hc : (a : ℚ) ≤ (b : ℚ) := by exact_mod_cast hab.le
  have := mul_le_mul_of_nonneg_right hc hstep
  linarith

theorem pobs_monotone_core (betaPpf : ℚ → ℚ → ℚ → ℚ) (sqrtQ : ℚ → ℚ)
    (items : List (PF × PF))
    (hd : ∀ it ∈ items, ∃ dv, it.2 = some dv ∧ 0 ≤ dv) :
    ((alphaValues.map (sweepRowOk betaPpf sqrtQ items)).map
      (fun r => r.Pobs)).Pairwise (· ≤ ·) := by
  rw [List.map_map]
  refine List.Pairwise.map _ ?_ alphaValues_pairwise
  intro alpha alpha2 hle
  have hL : ∀ a : ℚ, (1 + (items.countP (passB a) : ℚ)) +
      (1 + (items.countP (fun it => !passB a it) : ℚ)) =
      2 + (items.length : ℚ) := by
    intro a
    have h := countP_add_not (passB a) items
    push_cast [← h]
    ring
  have hcount : (items.countP (passB alpha) : ℚ) ≤
      (items.countP (passB alpha2) : ℚ) := by
    exact_mod_cast countP_pass_mono alpha alpha2 hle items hd
  have hlen : (0 : ℚ) ≤ 2 + (items.length : ℚ) := by
    have := Nat.cast_nonneg (α := ℚ) items.length
    linarith
  simp only [Function.comp, sweepRowOk]
  rw [hL alpha, hL alpha2]
  exact div_le_div_of_nonneg_right (add_le_add_left hcount 1) hlen

/-- C8: on a ReplicateSet free of NaN with nonnegative `destimated` (and a
dimensionality/`K` combination that reaches the return), the observed
coverage array is monotonically non-decreasing along the ascending alpha
grid: `Pobs[m] <= Pobs[n]` whenever `m < n`. -/
theorem pobs_monotone (betaPpf : ℚ → ℚ → ℚ → ℚ) (erfQ sqrtQ : ℚ → ℚ)
    (replicates : List (Replicate PF)) (K : ℕ)
    (hclean : cleanNonneg replicates)
    (hsc : summaryCheck ((replicates.headD default).estimated.ndim) K =
      Except.ok ()) :
    ∃ res, generateConfidenceIntervals betaPpf erfQ sqrtQ replicates K =
        Except.ok res ∧
      ∀ m n, m < n → n < res.Pobs.length →
        res.Pobs.getD m 0 ≤ res.Pobs.getD n 0 := by
  have hprops := testedItems_clean ((replicates.headD default).estimated.ndim)
    K replicates hclean
  have hsome : ∀ it ∈ testedItems ((replicates.headD default).estimated.ndim)
      K replicates, it.1.isSome = true ∧ it.2.isSome = true := by
    intro it hit
    obtain ⟨h1, dv, h2, _⟩ := hprops it hit
    exact ⟨h1, by rw [h2]; rfl⟩
  have hrows : mapE (sweepRow betaPpf sqrtQ
      (testedItems ((replicates.headD default).estimated.ndim) K replicates))
      alphaValues = Except.ok (alphaValues.map (sweepRowOk betaPpf sqrtQ
      (testedItems ((replicates.headD default).estimated.ndim) K
        replicates))) :=
    mapE_ok_map _ _ _ (fun alpha _ => sweepRow_eq_ok betaPpf sqrtQ _ alpha
      hsome)
  have hgci : generateConfidenceIntervals betaPpf erfQ sqrtQ replicates K =
      Except.ok (CIResult.mk alphaValues
        ((alphaValues.map (sweepRowOk betaPpf sqrtQ (testedItems
          ((replicates.headD default).estimated.ndim) K replicates))).map
          (fun r => r.Pobs))
        ((alphaValues.map (sweepRowOk betaPpf sqrtQ (testedItems
          ((replicates.headD default).estimated.ndim) K replicates))).map
          (fun r => r.Plow))
        ((alphaValues.map (sweepRowOk betaPpf sqrtQ (testedItems
          ((replicates.headD default).estimated.ndim) K replicates))).map
          (fun r => r.Phigh))
        ((alphaValues.map (sweepRowOk betaPpf sqrtQ (testedItems
          ((replicates.headD default).estimated.ndim) K replicates))).map
          (fun r => r.dPobs))
        (alphaValues.map (fun a => erfQ (a / sqrtQ 2)))) := by
    simp only [generateConfidenceIntervals, hrows, hsc]
  refine ⟨_, hgci, ?_⟩
  · dsimp only
    intro m n hmn hn
    have hpair := pobs_monotone_core betaPpf sqrtQ
      (testedItems ((replicates.headD default).estimated.ndim) K replicates)
      (fun it hit => (hprops it hit).2)
    rw [List.pairwise_iff_get] at hpair
    have hm := lt_trans hmn hn
    rw [List.getD_eq_getElem _ _ hm, List.getD_eq_getElem _ _ hn]
    simpa using hpair ⟨m, hm⟩ ⟨n, hn⟩ hmn

/-- Witness for `pobs_monotone` at the concrete NaN-free input
`cleanReps`. -/
theorem pobs_monotone_witness :
    cleanNonneg cleanReps ∧
    summaryCheck ((cleanReps.headD default).estimated.ndim) 2 =
      Except.ok () ∧
    (∃ res, generateConfidenceIntervals (fun _ _ _ => 1/2) (fun q => q)
        (fun q => q) cleanReps 2 = Except.ok res ∧
      ∀ m n, m < n → n < res.Pobs.length →
        res.Pobs.getD m 0 ≤ res.Pobs.getD n 0) := by
  have hclean : cleanNonneg cleanReps := by
    intro r hr
    rcases List.mem_cons.1 hr with rfl | hr2
    · exact ⟨rfl, by norm_num [Data.all]⟩
    · rcases List.mem_cons.1 hr2 with rfl | hr3
      · exact ⟨rfl, by norm_num [Data.all]⟩
      · simp at hr3
  exact ⟨hclean, rfl,
    pobs_monotone (fun _ _ _ => 1/2) (fun q => q) (fun q => q) cleanReps 2
      hclean rfl⟩

theorem scal_map_mul (c : ℚ) (d : Data ℚ) :
    (d.map (fun e => c * e)).scal 0 = c * d.scal 0 := by
  cases d with
  | d0 x => rfl
  | d1 v => show (0 : ℚ) = c * 0; rw [mul_zero]
  | d2 m => show (0 : ℚ) = c * 0; rw [mul_zero]
  | d3 t => show (0 : ℚ) = c * 0; rw [mul_zero]

theorem vec1_map (f : ℚ → ℚ) (d : Data ℚ) :
    (d.map f).vec1 = d.vec1.map f := by
  cases d <;> rfl

theorem mat2_map (f : ℚ → ℚ) (d : Data ℚ) :
    (d.map f).mat2 = d.mat2.map (List.map f) := by
  cases d <;> rfl

theorem getD_map_mul (c : ℚ) (v : List ℚ) (i : ℕ) :
    (v.map (fun e => c * e)).getD i 0 = c * v.getD i 0 := by
  rcases lt_or_ge i v.length with h | h
  · rw [List.getD_eq_getElem _ _ (by simpa using h), List.getElem_map,
      List.getD_eq_getElem _ _ h]
  · rw [List.getD_eq_default _ _ (by simpa using h),
      List.getD_eq_default _ _ h, mul_zero]

theorem getD2_map_mul (c : ℚ) (m : List (List ℚ)) (i j : ℕ) :
    getD2 (m.map (List.map (fun e => c * e))) i j 0 = c * getD2 m i j 0 := by
  unfold getD2
  rcases lt_or_ge i m.length with h | h
  · have h2 : i < (m.map (List.map (fun e => c * e))).length := by simpa using h
    rw [List.getD_eq_getElem (m.map (List.map (fun e => c * e))) [] h2,
      List.getD_eq_getElem m [] h, List.getElem_map]
    exact getD_map_mul c m[i] j
  · have h2 : (m.map (List.map (fun e => c * e))).length ≤ i := by simpa using h
    rw [List.getD_eq_default (m.map (List.map (fun e => c * e))) [] h2,
      List.getD_eq_default m [] h]
    simp

theorem scale_entry (c : ℚ) (hc : c ≠ 0) (e s : ℚ) (hs : s ≠ 0) :
    c * e / corrSigma (c * s) = e / corrSigma s := by
  have hcs : c * s ≠ 0 := mul_ne_zero hc hs
  unfold corrSigma
  rw [if_neg hcs, if_neg hs]
  exact mul_div_mul_left e s hc

theorem zip_mask_scale1 (c : ℚ) (hc : c ≠ 0) :
    ∀ (sv av : List ℚ),
      List.zipWith (fun s a => if s = 0 then 0 else a)
        (sv.map (fun e => c * e)) av =
      List.zipWith (fun s a => if s = 0 then 0 else a) sv av := by
  intro sv
  induction sv with
  | nil => intro av; rfl
  | cons s sv ih =>
      intro av
      cases av with
      | nil => rfl
      | cons a av =>
          simp only [List.map_cons, List.zipWith_cons_cons, ih]
          by_cases hs : s = 0
          · simp [hs]
          · simp [hs, mul_eq_zero, hc]

theorem zip_mask_scale2 (c : ℚ) (hc : c ≠ 0) :
    ∀ (sm am : List (List ℚ)),
      List.zipWith (List.zipWith (fun s a => if s = 0 then 0 else a))
        (sm.map (List.map (fun e => c * e))) am =
      List.zipWith (List.zipWith (fun s a => if s = 0 then 0 else a)) sm am := by
  intro sm
  induction sm with
  | nil => intro am; rfl
  | cons s sm ih =>
      intro am
      cases am with
      | nil => rfl
      | cons a am =>
          simp only [List.map_cons, List.zipWith_cons_cons, ih,
            zip_mask_scale1 c hc]

theorem zip_mask_scale3 (c : ℚ) (hc : c ≠ 0) :
    ∀ (st au : List (List (List ℚ))),
      List.zipWith (List.zipWith (List.zipWith
          (fun s a => if s = 0 then 0 else a)))
        (st.map (fun m => m.map (List.map (fun e => c * e)))) au =
      List.zipWith (List.zipWith (List.zipWith
        (fun s a => if s = 0 then 0 else a))) st au := by
  intro st
  induction st with
  | nil => intro au; rfl
  | cons s st ih =>
      intro au
      cases au with
      | nil => rfl
      | cons a au =>
          simp only [List.map_cons, List.zipWith_cons_cons, ih,
            zip_mask_scale2 c hc]

theorem zip_shape1 (f g : ℚ → ℚ) (df : ℚ → ℚ → ℚ) (z : List ℚ) :
    ∀ (v w : List ℚ),
      (List.zipWith df (v.map f) (w.map g)).map (fun _ => z) =
      (List.zipWith df v w).map (fun _ => z) := by
  intro v
  induction v with
  | nil => intro w; rfl
  | cons x v ih =>
      intro w
      cases w with
      | nil => rfl
      | cons y w => simp only [List.map_cons, List.zipWith_cons_cons, ih]

theorem zip_shape2 (f g : ℚ → ℚ) (df : ℚ → ℚ → ℚ) (z : List ℚ) :
    ∀ (m n : List (List ℚ)),
      (List.zipWith (List.zipWith df) (m.map (List.map f))
        (n.map (List.map g))).map (List.map (fun _ => z)) =
      (List.zipWith (List.zipWith df) m n).map (List.map (fun _ => z)) := by
  intro m
  induction m with
  | nil => intro n; rfl
  | cons x m ih =>
      intro n
      cases n with
      | nil => rfl
      | cons y n =>
          simp only [List.map_cons, List.zipWith_cons_cons, ih]
          rw [zip_shape1 f g df z x y]

theorem zip_shape3 (f g : ℚ → ℚ) (df : ℚ → ℚ → ℚ) (z : List ℚ) :
    ∀ (u t : List (List (List ℚ))),
      (List.zipWith (List.zipWith (List.zipWith df))
          (u.map (fun m => m.map (List.map f)))
          (t.map (fun m => m.map (List.map g)))).map
        (fun m => m.map (List.map (fun _ => z))) =
      (List.zipWith (List.zipWith (List.zipWith df)) u t).map
        (fun m => m.map (List.map (fun _ => z))) := by
  intro u
  induction u with
  | nil => intro t; rfl
  | cons x u ih =>
      intro t
      cases t with
      | nil => rfl
      | cons y t =>
          simp only [List.map_cons, List.zipWith_cons_cons, ih]
          rw [zip_shape2 f g df z x y]

/-- C9: the Anderson-Darling statistic is invariant under rescaling
`error` and `destimated` of every replicate by the same positive scalar
`c`: at non-degenerate coordinates the normalized ratio `error/sigma` is
unchanged, and the zero-sigma mask is preserved (`c*sigma = 0` iff
`sigma = 0`), so the masked statistic is identical. -/
theorem andersonDarling_scale_invariant (cdf logQ : ℚ → ℚ) (c : ℚ)
    (replicates : List (Replicate ℚ)) (K : ℕ) (hc : 0 < c) :
    AndersonDarlingCore cdf logQ (replicates.map (scaleReplicate c)) K =
      AndersonDarlingCore cdf logQ replicates K := by
  have hc0 : c ≠ 0 := ne_of_gt hc
  cases replicates with
  | nil => rfl
  | cons r0 rest =>
      simp only [AndersonDarlingCore, OrderReplicatesCore, List.length_map,
        List.length_cons]
      have hhead : (List.map (scaleReplicate c) (r0 :: rest)).headD default =
          scaleReplicate c r0 := rfl
      have hhead2 : (r0 :: rest).headD default = r0 := rfl
      rw [hhead, hhead2]
      have hd : (scaleReplicate c r0).destimated =
          r0.destimated.map (fun e => c * e) := rfl
      have he : (scaleReplicate c r0).error =
          r0.error.map (fun e => c * e) := rfl
      rw [hd, he]
      cases hσ : r0.destimated with
      | d0 s =>
          simp only [Data.map, Data.zipWith]
          by_cases hs : s = 0
          · simp [hs]
          · have hcs : c * s ≠ 0 := mul_ne_zero hc0 hs
            rw [if_neg hcs, if_neg hs]
            have hcol : List.map
                (fun r => r.error.scal 0 / corrSigma (c * s))
                (List.map (scaleReplicate c) (r0 :: rest)) =
                List.map (fun r => r.error.scal 0 / corrSigma s)
                  (r0 :: rest) := by
              rw [List.map_map]
              refine List.map_congr_left ?_
              intro r _
              show (scaleReplicate c r).error.scal 0 / corrSigma (c * s) = _
              rw [show (scaleReplicate c r).error =
                r.error.map (fun e => c * e) from rfl, scal_map_mul]
              exact scale_entry c hc0 _ s hs
            rw [hcol]
      | d1 sv =>
          simp only [Data.map, Data.zipWith]
          refine congrArg Data.d1 ?_
          refine List.ext_getElem ?_ ?_
          · simp [List.length_zipWith, List.length_map, List.length_range]
          · intro idx h1 h2
            simp only [List.length_zipWith, List.length_map,
              List.length_range, lt_min_iff] at h2
            simp only [List.getElem_zipWith, List.getElem_map,
              List.getElem_range]
            by_cases hz : sv[idx] = 0
            · simp [hz]
            · rw [if_neg (mul_ne_zero hc0 hz), if_neg hz]
              have hcol : List.map (fun r => r.error.vec1.getD idx 0 /
                  corrSigma ((List.map (fun e => c * e) sv).getD idx 0))
                  (List.map (scaleReplicate c) (r0 :: rest)) =
                  List.map (fun r => r.error.vec1.getD idx 0 /
                    corrSigma (sv.getD idx 0)) (r0 :: rest) := by
                rw [List.map_map]
                refine List.map_congr_left ?_
                intro r _
                show (scaleReplicate c r).error.vec1.getD idx 0 /
                  corrSigma ((List.map (fun e => c * e) sv).getD idx 0) = _
                rw [show (scaleReplicate c r).error =
                  r.error.map (fun e => c * e) from rfl, vec1_map,
                  getD_map_mul, getD_map_mul]
                have hz2 : sv.getD idx 0 ≠ 0 := by
                  rw [List.getD_eq_getElem sv 0 h2.1]
                  exact hz
                exact scale_entry c hc0 _ _ hz2
              rw [hcol]
      | d2 sm =>
          simp only [Data.map, Data.zipWith]
          refine congrArg Data.d2 ?_
          refine List.ext_getElem ?_ ?_
          · simp [List.length_zipWith, List.length_map, List.length_range]
          · intro i h1 h2
            simp only [List.length_zipWith, List.length_map,
              List.length_range, lt_min_iff] at h2
            simp only [List.getElem_zipWith, List.getElem_map,
              List.getElem_range]
            refine List.ext_getElem ?_ ?_
            · simp [List.length_zipWith, List.length_map, List.length_range]
            · intro j g1 g2
              simp only [List.length_zipWith, List.length_map,
                List.length_range, lt_min_iff] at g2
              simp only [List.getElem_zipWith, List.getElem_map,
                List.getElem_range]
              by_cases hz : sm[i][j] = 0
              · simp [hz]
              · rw [if_neg (mul_ne_zero hc0 hz), if_neg hz]
                have hz2 : getD2 sm i j 0 ≠ 0 := by
                  unfold getD2
                  rw [List.getD_eq_getElem sm [] h2.1,
                    List.getD_eq_getElem sm[i] 0 g2.1]
                  exact hz
                have hcol : List.map (fun r => getD2 r.error.mat2 i j 0 /
                    corrSigma (getD2 (List.map (List.map (fun e => c * e)) sm)
                      i j 0))
                    (List.map (scaleReplicate c) (r0 :: rest)) =
                    List.map (fun r => getD2 r.error.mat2 i j 0 /
                      corrSigma (getD2 sm i j 0)) (r0 :: rest) := by
                  rw [List.map_map]
                  refine List.map_congr_left ?_
                  intro r _
                  show getD2 (scaleReplicate c r).error.mat2 i j 0 /
                    corrSigma (getD2 (List.map (List.map (fun e => c * e)) sm)
                      i j 0) = _
                  rw [show (scaleReplicate c r).error =
                    r.error.map (fun e => c * e) from rfl, mat2_map,
                    getD2_map_mul, getD2_map_mul]
                  exact scale_entry c hc0 _ _ hz2
                rw [hcol]
      | d3 t =>
          cases hε : r0.error with
          | d0 x =>
              simp only [Data.map, Data.zipWith]
          | d1 v =>
              simp only [Data.map, Data.zipWith]
          | d2 m =>
              simp only [Data.map, Data.zipWith]
          | d3 u =>
              simp only [Data.map, Data.zipWith]
              rw [zip_shape3 (fun e => c * e) (fun e => c * e)
                (fun e s => e / corrSigma s)
                (List.replicate (rest.length + 1) 0) u t]
              rw [zip_mask_scale3 c hc0]

/-- Witness for `andersonDarling_scale_invariant` with `c = 2` at a
concrete scalar input. -/
theorem andersonDarling_scale_invariant_witness :
    (0 : ℚ) < 2 ∧
    AndersonDarlingCore (fun q => q) (fun q => q)
      ([(⟨Data.d0 1, Data.d0 2, Data.d0 3⟩ : Replicate ℚ)].map
        (scaleReplicate 2)) 1 =
      AndersonDarlingCore (fun q => q) (fun q => q)
        [(⟨Data.d0 1, Data.d0 2, Data.d0 3⟩ : Replicate ℚ)] 1 :=
  ⟨by norm_num,
    andersonDarling_scale_invariant (fun q => q) (fun q => q) 2
      [(⟨Data.d0 1, Data.d0 2, Data.d0 3⟩ : Replicate ℚ)] 1 (by norm_num)⟩
